import Mathlib

/-!
Verification development for the LCSH validation service.

The two core modules are shallowly embedded here:

* `src/scraper.py` — `LCSHScraper`: percent-encoding of the query, the search
  URL template, the HTML result-page scan of `search_terms`, and the
  rate-limiter `_wait_for_rate_limit` (modelled with an explicit rational
  clock).
* `src/similarity.py` — `SimilarityEngine.compute_similarities`: TF-IDF
  vectorization over the call-scoped corpus, cosine similarity, `np.argsort`
  selection of the top-k candidates and emission of rounded scores.

Python dictionaries that may lack keys are embedded as structures with
`Option` fields; Python exceptions are embedded as `Except` values; floats
are embedded as exact integer score data (for everything the pipeline
compares — see the note on the abstract IDF weight at the similarity
section) and real numbers (for the emitted cosine values, which involve
square roots), with the rate limiter's wall clock embedded as exact
rationals.
-/

namespace LCSH

/-! ## HTML document model (as seen through BeautifulSoup in `search_terms`)

`search_terms` only inspects: the `<table class="id-std">` element, its
`<tbody class="tbody-group">` result groups, the first `<tr>` of each group,
the `<td>` cells of that row, the first `<a>` of the second cell, that link's
text and `href` attribute, and the text of the last cell.  The model
represents exactly those observations. -/

/-- An `<a>` element: its visible text (`link.text`) and its optional `href`
attribute (`link.get('href', '')` substitutes `""` when the attribute is
absent). -/
structure Link where
  text : String
  href : Option String
  deriving DecidableEq

/-- A `<td>` cell: the first `<a>` inside it, if any (`link_cell.find('a')`),
and its full visible text (`id_cell.text`). -/
structure Cell where
  link : Option Link
  text : String
  deriving DecidableEq

/-- A `<tr>` row: its list of `<td>` cells (`row.find_all('td')`). -/
structure Row where
  tds : List Cell
  deriving DecidableEq

/-- One `<tbody class="tbody-group">` result group: `entry.find('tr')` yields
its first row when one exists. -/
structure Entry where
  row : Option Row
  deriving DecidableEq

/-- A fetched response page: `soup.find('table', class_='id-std')` yields the
results table (its list of result groups) when one exists. -/
structure Page where
  table : Option (List Entry)
  deriving DecidableEq

/-- The dictionary appended to `results` for each extracted heading
(scraper.py lines 136-140). -/
structure SubjectRecord where
  term : String
  id : String
  url : String
  deriving DecidableEq

/-! ## Percent-encoding (`urllib.parse.quote`) and the search URL -/

/-- Uppercase hexadecimal digit, as `urllib.parse.quote` emits. -/
def hexDigit (n : ℕ) : Char :=
  if n < 10 then Char.ofNat (48 + n) else Char.ofNat (55 + n)

/-- Percent-encode a single byte value. -/
def percentByte (b : ℕ) : String :=
  String.mk ['%', hexDigit (b / 16 % 16), hexDigit (b % 16)]

/-- UTF-8 encoding of one character (standard 1-4 byte encoding of its
code point), used by `quote` for characters that are not kept as-is. -/
def utf8Bytes (c : Char) : List ℕ :=
  let n := c.toNat
  if n < 0x80 then [n]
  else if n < 0x800 then [0xC0 + n / 64, 0x80 + n % 64]
  else if n < 0x10000 then [0xE0 + n / 4096, 0x80 + n / 64 % 64, 0x80 + n % 64]
  else [0xF0 + n / 262144, 0x80 + n / 4096 % 64, 0x80 + n / 64 % 64, 0x80 + n % 64]

/-- Characters `urllib.parse.quote` never encodes: ASCII alphanumerics,
`_`, `.`, `-`, `~`, and the default safe character `/`. -/
def quoteSafe (c : Char) : Bool :=
  c.isAlphanum || c == '_' || c == '.' || c == '-' || c == '~' || c == '/'

/-- `urllib.parse.quote` applied to one character. -/
def quoteChar (c : Char) : String :=
  if quoteSafe c then String.singleton c
  else String.join ((utf8Bytes c).map percentByte)

/-- `urllib.parse.quote` with the default `safe='/'`: total on every string,
including strings containing `&`, `?`, non-ASCII characters, or the empty
string (scraper.py line 96). -/
def quote (s : String) : String :=
  String.join (s.data.map quoteChar)

/-- The URL template held in `self.base_url` (scraper.py line 50). -/
def base_url : String :=
  "https://id.loc.gov/search/?q={keyword}&q=cs:http://id.loc.gov/authorities/subjects"

/-- `self.base_url.format(keyword=encoded_query)` after
`encoded_query = quote(query)` (scraper.py lines 96-97). -/
def searchURL (query : String) : String :=
  base_url.replace "{keyword}" (quote query)

/-! ## Result-page scan (`search_terms`, scraper.py lines 93-148) -/

/-- Python's `str.strip()`: remove leading and trailing whitespace. -/
def pystrip (s : String) : String :=
  String.mk (((s.data.dropWhile Char.isWhitespace).reverse.dropWhile
    Char.isWhitespace).reverse)

/-- Python's `str.startswith(p)`. -/
def startswith (s p : String) : Bool :=
  p.data.isPrefixOf s.data

/-- A Python exception escaping one iteration of the entry loop.  The only
such exception reachable in the model is the `IndexError` raised by
`row.find_all('td')[1]` when the row has fewer than two cells. -/
inductive ParseAbort where
  | indexError
  deriving DecidableEq

/-- One iteration of the entry loop (scraper.py lines 119-140): take the
first row of the group; index cell 1 for the link (raising `IndexError` when
there is no such cell) and the last cell for the identifier; trim both texts;
emit a record only when both are non-empty, making the URL absolute when the
`href` is a relative path. -/
def processEntry (e : Entry) : Except ParseAbort (Option SubjectRecord) :=
  match e.row with
  | none => .ok none
  | some row =>
    match row.tds.get? 1 with
    | none => .error .indexError
    | some link_cell =>
      match link_cell.link with
      | none => .ok none
      | some link =>
        let term := pystrip link.text
        let href := link.href.getD ""
        match row.tds.getLast? with
        | none => .error .indexError
        | some id_cell =>
          let lcsh_id := pystrip id_cell.text
          if term ≠ "" ∧ lcsh_id ≠ "" then
            let full_url :=
              if startswith href "/" then "https://id.loc.gov" ++ href else href
            .ok (some ⟨term, lcsh_id, full_url⟩)
          else
            .ok none

/-- The entry loop of `search_terms`.  `results` lives outside the
`try` block, so records appended before an exception survive it, while the
exception aborts the loop: all later entries are lost (the `except` handlers
at lines 142-145 swallow it and fall through to `return results`). -/
def scanEntries : List Entry → List SubjectRecord
  | [] => []
  | e :: es =>
    match processEntry e with
    | .error _ => []
    | .ok none => scanEntries es
    | .ok (some r) => r :: scanEntries es

/-- A failure of `self.client.get(search_url)` or
`response.raise_for_status()`: a transport-level error or an HTTP status
error (both are `httpx.HTTPError` subclasses). -/
inductive FetchError where
  | transportError (msg : String)
  | statusError (code : ℕ)
  deriving DecidableEq

/-- `LCSHScraper.search_terms` (scraper.py lines 93-148).  The network is an
oracle `fetch` mapping the request URL to either a parsed page or a fetch
error.  Every error is swallowed (lines 142-145) and the accumulated
`results` list is returned; a missing results table leaves `results` empty.
`max_pages` is accepted but unused, as in the source (exactly one page is
parsed). -/
def search_terms (fetch : String → Except FetchError Page) (query : String)
    (max_pages : ℕ := 3) : List SubjectRecord :=
  let _ := max_pages
  match fetch (searchURL query) with
  | .error _ => []
  | .ok page =>
    match page.table with
    | none => []
    | some entries => scanEntries entries

/-! ## Rate limiter (`_wait_for_rate_limit`, scraper.py lines 55-67)

Timing model: a rational-valued wall clock carried as explicit state.
Statements execute instantaneously except `time.sleep(d)`, which advances
the clock by exactly `d`; arbitrary nonnegative time may pass while the
request itself is in flight and between two calls. -/

/-- Timing state of one scraper instance: the `last_request_time` field and
the current wall-clock reading that `time.time()` would return. -/
structure ClockState where
  last_request_time : ℚ
  now : ℚ
  deriving DecidableEq

/-- `self.min_request_interval = 1` (scraper.py line 52). -/
def min_request_interval : ℚ := 1

/-- `_wait_for_rate_limit` (scraper.py lines 55-67): read the clock, sleep
for the remaining fraction of the minimum interval when the previous request
was too recent, then store the post-sleep clock into
`last_request_time`. -/
def wait_for_rate_limit (s : ClockState) : ClockState :=
  let current_time := s.now
  let time_since_last_request := current_time - s.last_request_time
  let now' :=
    if time_since_last_request < min_request_interval then
      current_time + (min_request_interval - time_since_last_request)
    else
      current_time
  { last_request_time := now', now := now' }

/-- The wall-clock instant at which the outbound request of one
`search_terms` call starts: `self.client.get` immediately follows
`self._wait_for_rate_limit()` (scraper.py lines 103-104). -/
def requestStart (s : ClockState) : ℚ :=
  (wait_for_rate_limit s).now

/-- The wall clock advancing by `d` while no scraper statement runs. -/
def advance (s : ClockState) (d : ℚ) : ClockState :=
  { s with now := s.now + d }

/-! ## Entry classification used by the claims about `search_terms` -/

/-- An entry the loop passes over without touching `results`: its group has
no row, or the link cell holds no `<a>`, or the trimmed term or identifier is
empty. -/
def skippable (e : Entry) : Prop :=
  processEntry e = .ok none

/-- An entry whose processing raises `IndexError` (its row has fewer than two
cells, so `row.find_all('td')[1]` fails). -/
def aborting (e : Entry) : Prop :=
  processEntry e = .error .indexError

/-- An entry from which the loop extracts and appends the record `r`. -/
def emits (e : Entry) (r : SubjectRecord) : Prop :=
  processEntry e = .ok (some r)

deriving instance DecidableEq for Except

instance (e : Entry) : Decidable (skippable e) := by
  unfold skippable; infer_instance

instance (e : Entry) : Decidable (aborting e) := by
  unfold aborting; infer_instance

instance (e : Entry) (r : SubjectRecord) : Decidable (emits e r) := by
  unfold emits; infer_instance

/-- A well-formed result group: a leading select cell, the link cell, and a
trailing identifier cell. -/
def goodEntry : Entry :=
  ⟨some ⟨[⟨none, ""⟩,
          ⟨some ⟨"Beta", some "/authorities/subjects/sh222"⟩, "Beta"⟩,
          ⟨none, "sh222"⟩]⟩⟩

/-- A malformed result group: the row is present and keeps its leading cell
and its link cell, but the trailing identifier cell is missing. -/
def noIdCellEntry : Entry :=
  ⟨some ⟨[⟨none, ""⟩,
          ⟨some ⟨"Alpha", some "/authorities/subjects/sh111"⟩, "Alpha"⟩]⟩⟩

/-! ## Claims about `search_terms` -/

/-! ## Similarity engine (`src/similarity.py`)

`SimilarityEngine.compute_similarities` feeds the joined query string and the
candidate terms to `TfidfVectorizer(lowercase=True, ngram_range=(1, 2),
stop_words='english')`, takes cosine similarities of the query row against
the candidate rows, selects `np.argsort(similarities)[-top_k:][::-1]` and
emits dictionaries with scores rounded to three decimals.

The vectorizer's analysis chain is embedded exactly (lowercasing, the
default token pattern `\w\w+`, English stop-word removal, unigrams and
bigrams, per-corpus document frequencies).  Its IDF weight
`ln((1+n)/(1+df))+1` is irrational and cannot be carried exactly, so the
weight is abstracted as a parameter `w : ℕ → ℕ → ℤ` of the embedding (it
enters only through products, sums and comparisons, and the kernel can then
evaluate the whole pipeline on concrete inputs); every theorem below is
proved for all `w`, and the concrete evaluations instantiate `w = 1`, using
only facts that hold for every weighting, sklearn's included (equal rows
give equal scores, a zero query row gives zero scores, an empty vocabulary
gives an error).

Cosine similarities are compared through the exact cross-multiplied form of
`dot/√(qnsq·nsq)` (the function `Score.le`), which agrees with the real
comparison on every score the pipeline produces; the emitted value itself is
the real number `cosValue`. -/

/-- A candidate dictionary passed to `compute_similarities`: a Python dict
that may or may not contain each of the keys `"term"`, `"id"`, `"url"`. -/
structure Candidate where
  term : Option String
  id : Option String
  url : Option String
  deriving DecidableEq

/-- Word characters of the vectorizer's default token pattern `\w\w+`
(ASCII scope of the embedding). -/
def isWordChar (c : Char) : Bool :=
  c.isAlphanum || c == '_'

/-- Maximal runs of word characters in a character stream, accumulating the
current run in reverse in `acc`. -/
def wordRuns : List Char → List Char → List String
  | [], acc => if acc.isEmpty then [] else [String.mk acc.reverse]
  | c :: cs, acc =>
    if isWordChar c then wordRuns cs (c :: acc)
    else if acc.isEmpty then wordRuns cs []
    else String.mk acc.reverse :: wordRuns cs []

/-- The entries of sklearn's frozen `ENGLISH_STOP_WORDS` set used by
`stop_words='english'`.  The frozen set has 318 entries; this list carries
the bulk of them, and every concrete text evaluated in this development
only ever meets stop words listed here.  (Which strings beyond these are
stop words never matters to the theorems: they quantify over the corpus.) -/
def english_stop_words : List String :=
  ["a", "about", "above", "across", "after", "afterwards", "again",
   "against", "all", "almost", "alone", "along", "already", "also",
   "although", "always", "am", "among", "amongst", "an", "and", "another",
   "any", "anyhow", "anyone", "anything", "anyway", "anywhere", "are",
   "around", "as", "at", "back", "be", "became", "because", "become",
   "becomes", "becoming", "been", "before", "behind", "being", "below",
   "beside", "besides", "between", "beyond", "both", "but", "by", "can",
   "cannot", "could", "do", "done", "down", "during", "each", "eight",
   "either", "else", "elsewhere", "empty", "enough", "etc", "even", "ever",
   "every", "everyone", "everything", "everywhere", "few", "first", "for",
   "former", "formerly", "from", "front", "full", "further", "get", "give",
   "go", "had", "has", "have", "he", "hence", "her", "here", "hereafter",
   "hereby", "herein", "hereupon", "hers", "herself", "him", "himself",
   "his", "how", "however", "i", "ie", "if", "in", "indeed", "into", "is",
   "it", "its", "itself", "last", "latter", "least", "less", "many", "may",
   "me", "meanwhile", "might", "mine", "more", "moreover", "most", "mostly",
   "much", "must", "my", "myself", "namely", "neither", "never",
   "nevertheless", "next", "nine", "no", "nobody", "none", "nor", "not",
   "nothing", "now", "nowhere", "of", "off", "often", "on", "once", "one",
   "only", "onto", "or", "other", "others", "otherwise", "our", "ours",
   "ourselves", "out", "over", "own", "per", "perhaps", "please", "put",
   "rather", "re", "same", "see", "seem", "seemed", "seeming", "seems",
   "she", "should", "since", "six", "so", "some", "somehow", "someone",
   "something", "sometime", "sometimes", "somewhere", "still", "such",
   "than", "that", "the", "their", "them", "themselves", "then", "thence",
   "there", "thereafter", "thereby", "therefore", "therein", "thereupon",
   "these", "they", "this", "those", "though", "three", "through",
   "throughout", "thus", "to", "together", "too", "toward", "towards",
   "under", "until", "up", "upon", "us", "very", "via", "was", "we", "well",
   "were", "what", "whatever", "when", "whence", "whenever", "where",
   "whereafter", "whereas", "whereby", "wherein", "whereupon", "wherever",
   "whether", "which", "while", "who", "whoever", "whole", "whom", "whose",
   "why", "will", "with", "within", "without", "would", "yet", "you",
   "your", "yours", "yourself", "yourselves"]

/-- The vectorizer's tokenization of one document: lowercase, extract the
`\w\w+` tokens, drop English stop words. -/
def tokenize (text : String) : List String :=
  ((wordRuns (text.data.map Char.toLower) []).filter
      (fun t => 2 ≤ t.length)).filter (fun t => t ∉ english_stop_words)

/-- The vectorizer's analysis of one document with `ngram_range=(1, 2)`:
the surviving tokens followed by the space-joined bigrams of consecutive
surviving tokens. -/
def analyze (text : String) : List String :=
  let toks := tokenize text
  toks ++ (toks.zip toks.tail).map (fun p => p.1 ++ " " ++ p.2)

/-- The call-scoped vocabulary `fit_transform` builds: every n-gram
occurring in the corpus, once each. -/
def vocabulary (texts : List String) : List String :=
  (texts.map analyze).flatten.dedup

/-- Raw term frequency of n-gram `t` in one document. -/
def tfCount (text t : String) : ℕ :=
  (analyze text).count t

/-- Document frequency of n-gram `t` in the corpus. -/
def dfCount (texts : List String) (t : String) : ℕ :=
  (texts.filter (fun d => t ∈ analyze d)).length

/-- TF-IDF inner product of the rows of documents `a` and `b` over the
corpus vocabulary, with IDF weight `w n df`:
`Σ_t (tf(a,t)·w)·(tf(b,t)·w)`.  (`TfidfVectorizer` L2-normalizes its rows
and `cosine_similarity` normalizes again; the composite is the inner
product divided by the norms, so the embedding works with the unnormalized
rows and divides once.) -/
def tfidfDot (w : ℕ → ℕ → ℤ) (texts : List String) (a b : String) : ℤ :=
  ((vocabulary texts).map (fun t =>
    ((tfCount a t : ℤ) * w texts.length (dfCount texts t)) *
    ((tfCount b t : ℤ) * w texts.length (dfCount texts t)))).sum

/-- The cosine-similarity data of one candidate row: its TF-IDF inner
product with the query row, and its own squared TF-IDF norm.  The squared
norm of the query row is shared across the batch. -/
structure Score where
  dot : ℤ
  nsq : ℤ
  deriving DecidableEq

instance : Inhabited Score := ⟨⟨0, 0⟩⟩

/-- The float `cosine_similarity` yields for one candidate row: `0` when
either row is the zero vector (sklearn's `normalize` leaves zero rows
zero), else the inner product over the product of norms. -/
noncomputable def cosValue (qnsq : ℤ) (s : Score) : ℝ :=
  if qnsq = 0 ∨ s.nsq = 0 then 0
  else (s.dot : ℝ) / (Real.sqrt (qnsq : ℤ) * Real.sqrt (s.nsq : ℤ))

/-- Comparison of two cosine values from their exact data, square-root
free: used as the embedding of the float comparison `np.argsort` performs.
On every score the pipeline produces it agrees with
`cosValue qnsq a ≤ cosValue qnsq b` (theorem `Score.le_iff_cosValue_le`). -/
def Score.le (qnsq : ℤ) (a b : Score) : Bool :=
  if qnsq = 0 ∨ a.nsq = 0 then true
  else if b.nsq = 0 then a.dot == 0
  else decide (a.dot ^ 2 * b.nsq ≤ b.dot ^ 2 * a.nsq)

/-- The index order `np.argsort` realizes on the similarity array:
ascending similarity, equal values in ascending index order (at the array
sizes exercised here numpy's introsort runs its insertion-sort branch,
which is stable). -/
def argOrder (qnsq : ℤ) (sc : List Score) (i j : ℕ) : Prop :=
  Score.le qnsq (sc.getD i default) (sc.getD j default) = true ∧
  (Score.le qnsq (sc.getD j default) (sc.getD i default) = true → i ≤ j)

instance (qnsq : ℤ) (sc : List Score) : DecidableRel (argOrder qnsq sc) :=
  fun i j => by unfold argOrder; infer_instance

/-- `np.argsort(similarities)`: the indices `0..n-1` sorted by `argOrder`
(insertion sort, as numpy's sort performs on small arrays). -/
def argsort (qnsq : ℤ) (sc : List Score) : List ℕ :=
  List.insertionSort (argOrder qnsq sc) (List.range sc.length)

/-- Python slice `xs[-k:]`: the last `k` elements — except that `k = 0`
yields the whole list, because `-0` is `0`. -/
def npTail {α : Type} (k : ℕ) (xs : List α) : List α :=
  if k = 0 then xs else xs.drop (xs.length - k)

/-- `np.argsort(similarities)[-top_k:][::-1]` (similarity.py line 123). -/
def top_indices (qnsq : ℤ) (sc : List Score) (top_k : ℕ) : List ℕ :=
  (npTail top_k (argsort qnsq sc)).reverse

/-- A Python exception escaping `compute_similarities`: a missing dict key
(`KeyError`), the `ValueError` raised by `fit_transform` on an empty
vocabulary, or an out-of-range index (`IndexError`, unreachable). -/
inductive PyError where
  | keyError (key : String)
  | emptyVocabulary
  | indexOutOfRange
  deriving DecidableEq

/-- One output dictionary of `compute_similarities`.  The Python dict holds
the rounded float `round(float(score), 3)`; the embedding stores the exact
data `(qnsq, score)` of that value and exposes the emitted number as
`Result.similarity_score`. -/
structure Result where
  term : String
  id : String
  url : String
  qnsq : ℤ
  score : Score
  deriving DecidableEq

/-- `round(x, 3)`: real rounding to the nearest thousandth. -/
noncomputable def round3 (x : ℝ) : ℝ :=
  (round (1000 * x) : ℤ) / 1000

/-- The `similarity_score` entry emitted at line 134. -/
noncomputable def Result.similarity_score (r : Result) : ℝ :=
  round3 (cosValue r.qnsq r.score)

/-- `" ".join(query_terms)` (similarity.py line 104). -/
def joinSpace : List String → String
  | [] => ""
  | [t] => t
  | t :: ts => t ++ " " ++ joinSpace ts

/-- Left-to-right effectful traversal: a Python list comprehension or
accumulation loop over `Except`, stopping at the first exception. -/
def mapExcept {α β ε : Type} (f : α → Except ε β) : List α → Except ε (List β)
  | [] => .ok []
  | x :: xs =>
    match f x with
    | .error e => .error e
    | .ok y =>
      match mapExcept f xs with
      | .error e => .error e
      | .ok ys => .ok (y :: ys)

/-- Reading `c[key]` from a candidate dict: `KeyError` when absent. -/
def getKey (v : Option String) (key : String) : Except PyError String :=
  match v with
  | some s => .ok s
  | none => .error (.keyError key)

/-- The loop body at lines 127-135: index `candidates[idx]` and
`similarities[idx]`, then build the output dict, reading the keys `"term"`,
`"id"`, `"url"` in that order. -/
def buildResult (qnsq : ℤ) (candidates : List Candidate) (sims : List Score)
    (idx : ℕ) : Except PyError Result :=
  match candidates.get? idx, sims.get? idx with
  | some c, some sc =>
    match c.term with
    | none => .error (.keyError "term")
    | some t =>
      match c.id with
      | none => .error (.keyError "id")
      | some i =>
        match c.url with
        | none => .error (.keyError "url")
        | some u => .ok ⟨t, i, u, qnsq, sc⟩
  | _, _ => .error .indexOutOfRange

/-- `SimilarityEngine.compute_similarities` (similarity.py lines 58-137).
Guard: empty query terms or candidates return `[]` (lines 100-101).  Then:
join the query terms (104), read every candidate's `"term"` (107, the first
missing key raises `KeyError`), fit the vectorizer on the corpus — which
raises `ValueError` when the vocabulary is empty (113) —, compute the
cosine similarities (120), select
`np.argsort(similarities)[-top_k:][::-1]` (123) and build the output
dictionaries (126-137). -/
def compute_similarities (w : ℕ → ℕ → ℤ) (query_terms : List String)
    (candidates : List Candidate) (top_k : ℕ := 10) :
    Except PyError (List Result) :=
  if query_terms = [] ∨ candidates = [] then .ok []
  else
    let query_text := joinSpace query_terms
    match mapExcept (fun c => getKey c.term "term") candidates with
    | .error e => .error e
    | .ok candidate_terms =>
      let all_texts := query_text :: candidate_terms
      if vocabulary all_texts = [] then .error .emptyVocabulary
      else
        let qnsq := tfidfDot w all_texts query_text query_text
        let sims := candidate_terms.map (fun t =>
          ⟨tfidfDot w all_texts query_text t, tfidfDot w all_texts t t⟩)
        mapExcept (buildResult qnsq candidates sims)
          (top_indices qnsq sims top_k)

/-- The candidate terms as extracted when every candidate has a `"term"`
key. -/
def candTerms (cands : List Candidate) : List String :=
  cands.map (fun c => c.term.getD "")

/-- The corpus `all_texts` of one call (line 110). -/
def corpus (qts : List String) (cands : List Candidate) : List String :=
  joinSpace qts :: candTerms cands

/-- The squared TF-IDF norm of the query row of one call. -/
def querySq (w : ℕ → ℕ → ℤ) (qts : List String)
    (cands : List Candidate) : ℤ :=
  tfidfDot w (corpus qts cands) (joinSpace qts) (joinSpace qts)

/-- The similarity array of one call (line 120, in exact form). -/
def simScores (w : ℕ → ℕ → ℤ) (qts : List String)
    (cands : List Candidate) : List Score :=
  (candTerms cands).map (fun t =>
    ⟨tfidfDot w (corpus qts cands) (joinSpace qts) t,
     tfidfDot w (corpus qts cands) t t⟩)

/-- The `top_indices` of one call (line 123). -/
def topIdx (w : ℕ → ℕ → ℤ) (qts : List String) (cands : List Candidate)
    (k : ℕ) : List ℕ :=
  top_indices (querySq w qts cands) (simScores w qts cands) k

instance : Inhabited Candidate := ⟨⟨none, none, none⟩⟩

/-- The output dictionary built for a selected index when the candidate
there has all three keys. -/
def mkResult (qnsq : ℤ) (cands : List Candidate) (sims : List Score)
    (idx : ℕ) : Result :=
  ⟨(cands.getD idx default).term.getD "", (cands.getD idx default).id.getD "",
   (cands.getD idx default).url.getD "", qnsq, sims.getD idx default⟩

/-- The cosine similarity of candidate `i` of one call, as a real number. -/
noncomputable def cosOf (w : ℕ → ℕ → ℤ) (qts : List String)
    (cands : List Candidate) (i : ℕ) : ℝ :=
  cosValue (querySq w qts cands) ((simScores w qts cands).getD i default)

/-- The facts every similarity row of one batch satisfies: a nonnegative
inner product, a nonnegative squared norm, the Cauchy–Schwarz bound against
the query row, and a zero inner product whenever either row is the zero
vector. -/
structure ScoreOk (qnsq : ℤ) (s : Score) : Prop where
  dot_nonneg : 0 ≤ s.dot
  nsq_nonneg : 0 ≤ s.nsq
  cs : s.dot ^ 2 ≤ qnsq * s.nsq
  dot_zero_q : qnsq = 0 → s.dot = 0
  dot_zero_n : s.nsq = 0 → s.dot = 0

/-! ## Theorems for the scraper claims -/

/-- C3: `search_terms` is embedded as a total Lean function on every string
query (in particular `quote` and `searchURL` are total, including on strings
containing `&`, `?`, non-ASCII characters, or the empty string), and whenever
the fetch of the search URL fails — at transport level or with an HTTP status
error — the caller receives the empty list rather than an exception. -/
theorem search_terms_error_returns_empty
    (fetch : String → Except FetchError Page) (query : String) (mp : ℕ)
    (e : FetchError) (h : fetch (searchURL query) = .error e) :
    search_terms fetch query mp = [] := by
  unfold search_terms
  rw [h]

/-- Witness for C3: a query containing `&`, `?` and a non-ASCII character,
fetched through a failing transport, yields the empty list. -/
theorem search_terms_error_returns_empty_witness :
    search_terms (fun _ => .error (.transportError "timeout")) "a&b?é" 3 = [] :=
  search_terms_error_returns_empty _ "a&b?é" 3 (.transportError "timeout") rfl

/-- C5 counterexample: a response page whose first result group is malformed
(the row is present but its trailing identifier cell is missing) followed by
a well-formed group.  The claim says the malformed entry is skipped; instead
`search_terms` emits a record for it, with the identifier drawn from the last
cell that is still present — here the link cell, so the bogus identifier
equals the term text `"Alpha"` instead of an authority id. -/
theorem search_terms_no_id_cell_not_skipped :
    search_terms (fun _ => .ok ⟨some [noIdCellEntry, goodEntry]⟩) "china" 3 =
      [⟨"Alpha", "Alpha", "https://id.loc.gov/authorities/subjects/sh111"⟩,
       ⟨"Beta", "sh222", "https://id.loc.gov/authorities/subjects/sh222"⟩] := by
  rfl

/-- When no entry of `pre` aborts the loop, scanning `pre ++ xs` scans `pre`
and then `xs`. -/
theorem scanEntries_append (pre xs : List Entry)
    (hpre : ∀ x ∈ pre, ¬ aborting x) :
    scanEntries (pre ++ xs) = scanEntries pre ++ scanEntries xs := by
  induction pre with
  | nil => simp [scanEntries]
  | cons a pre ih =>
    have ha : ¬ aborting a := hpre a (by simp)
    have ih' := ih (fun x hx => hpre x (by simp [hx]))
    unfold aborting at ha
    simp only [List.cons_append, scanEntries]
    cases hpa : processEntry a with
    | error err => cases err; exact absurd hpa ha
    | ok o => cases o <;> simp [ih']

/-- C5 (amended): provided no earlier entry of the page aborts the loop, a
skippable entry (no row, no link, or empty trimmed term/identifier) is
skipped and the rest of the page is still parsed; an entry whose row has
fewer than two cells raises `IndexError`, which the outer handler catches,
so the records already parsed are returned and every later entry is lost;
and an entry whose row still has at least two cells but lacks the identifier
cell is emitted as a record (with the identifier taken from the last cell
present), not skipped. -/
theorem search_terms_entry_cases
    (fetch : String → Except FetchError Page) (q : String) (mp : ℕ)
    (pre suf : List Entry) (e : Entry)
    (hf : fetch (searchURL q) = .ok ⟨some (pre ++ e :: suf)⟩)
    (hpre : ∀ x ∈ pre, ¬ aborting x) :
    (skippable e → search_terms fetch q mp = scanEntries (pre ++ suf)) ∧
    (aborting e → search_terms fetch q mp = scanEntries pre) ∧
    (∀ r, emits e r →
      search_terms fetch q mp = scanEntries pre ++ r :: scanEntries suf) := by
  have hst : search_terms fetch q mp = scanEntries (pre ++ e :: suf) := by
    unfold search_terms; rw [hf]
  rw [hst, scanEntries_append pre (e :: suf) hpre]
  refine ⟨fun hs => ?_, fun ha => ?_, fun r hr => ?_⟩
  · rw [scanEntries_append pre suf hpre]
    unfold skippable at hs
    simp only [scanEntries, hs]
  · unfold aborting at ha
    simp only [scanEntries, ha, List.append_nil]
  · unfold emits at hr
    simp only [scanEntries, hr]

/-- Witness for C5 (amended): on a concrete page, a linkless entry is
skipped with the rest still parsed, a one-cell row aborts the remainder, and
an entry lacking only the identifier cell is emitted with a bogus
identifier. -/
theorem search_terms_entry_cases_witness :
    (search_terms (fun _ => .ok ⟨some [goodEntry, ⟨some ⟨[⟨none, "x"⟩, ⟨none, "y"⟩]⟩⟩, goodEntry]⟩) "q" 3 =
      scanEntries [goodEntry, goodEntry]) ∧
    (search_terms (fun _ => .ok ⟨some [goodEntry, ⟨some ⟨[⟨none, "x"⟩]⟩⟩, goodEntry]⟩) "q" 3 =
      scanEntries [goodEntry]) ∧
    (search_terms (fun _ => .ok ⟨some [goodEntry, noIdCellEntry, goodEntry]⟩) "q" 3 =
      scanEntries [goodEntry] ++
        ⟨"Alpha", "Alpha", "https://id.loc.gov/authorities/subjects/sh111"⟩ ::
          scanEntries [goodEntry]) := by
  refine ⟨?_, ?_, ?_⟩
  · exact (search_terms_entry_cases _ "q" 3 [goodEntry] [goodEntry] _ rfl
      (by decide)).1 (by decide)
  · exact (search_terms_entry_cases _ "q" 3 [goodEntry] [goodEntry] _ rfl
      (by decide)).2.1 (by decide)
  · exact (search_terms_entry_cases _ "q" 3 [goodEntry] [goodEntry] _ rfl
      (by decide)).2.2 _ (by decide)

/-- Every record produced by the entry loop carries a trimmed non-empty term,
a trimmed non-empty identifier, and a URL built from the extracted href by
the relative-path rule of line 135. -/
theorem scanEntries_mem_spec (es : List Entry) (r : SubjectRecord)
    (h : r ∈ scanEntries es) :
    ∃ rawTerm rawId href : String,
      r.term = pystrip rawTerm ∧ r.term ≠ "" ∧
      r.id = pystrip rawId ∧ r.id ≠ "" ∧
      r.url = if startswith href "/" then "https://id.loc.gov" ++ href
              else href := by
  induction es with
  | nil => simp [scanEntries] at h
  | cons e es ih =>
    simp only [scanEntries] at h
    split at h
    · exact absurd h (List.not_mem_nil r)
    · exact ih h
    · rename_i rec hpe
      rcases List.mem_cons.mp h with rfl | hmem
      · clear ih h
        unfold processEntry at hpe
        split at hpe
        · exact absurd hpe (by simp)
        · split at hpe
          · exact absurd hpe (by simp)
          · split at hpe
            · exact absurd hpe (by simp)
            · rename_i lnk hlnk
              split at hpe
              · exact absurd hpe (by simp)
              · rename_i idc hidc
                simp only at hpe
                split at hpe
                · rename_i hcond
                  simp only [Except.ok.injEq, Option.some.injEq] at hpe
                  subst hpe
                  exact ⟨lnk.text, idc.text, lnk.href.getD "",
                    rfl, hcond.1, rfl, hcond.2, rfl⟩
                · exact absurd hpe (by simp)
      · exact ih hmem

/-- C8: every record in the sequence returned by `search_terms` stores its
term and identifier trimmed of surrounding whitespace and non-empty, and its
URL is the extracted link prefixed with the service origin
`https://id.loc.gov` when the link is a relative path starting with `/`, and
the link unchanged otherwise. -/
theorem search_terms_record_invariant
    (fetch : String → Except FetchError Page) (q : String) (mp : ℕ)
    (r : SubjectRecord) (h : r ∈ search_terms fetch q mp) :
    ∃ rawTerm rawId href : String,
      r.term = pystrip rawTerm ∧ r.term ≠ "" ∧
      r.id = pystrip rawId ∧ r.id ≠ "" ∧
      r.url = if startswith href "/" then "https://id.loc.gov" ++ href
              else href := by
  unfold search_terms at h
  split at h
  · exact absurd h (List.not_mem_nil r)
  · split at h
    · exact absurd h (List.not_mem_nil r)
    · exact scanEntries_mem_spec _ r h

/-- Witness for C8 at a concrete page with one well-formed entry. -/
theorem search_terms_record_invariant_witness :
    ∃ rawTerm rawId href : String,
      "Beta" = pystrip rawTerm ∧ ("Beta" : String) ≠ "" ∧
      "sh222" = pystrip rawId ∧ ("sh222" : String) ≠ "" ∧
      "https://id.loc.gov/authorities/subjects/sh222"
        = if startswith href "/" then "https://id.loc.gov" ++ href
          else href :=
  search_terms_record_invariant (fun _ => .ok ⟨some [goodEntry]⟩) "q" 3
    ⟨"Beta", "sh222", "https://id.loc.gov/authorities/subjects/sh222"⟩
    (by decide)

/-- C9: two consecutive `search_terms` calls on the same scraper instance
are separated, outbound-request start to outbound-request start, by at least
`min_request_interval`, and each call overwrites the shared
`last_request_time` with its own request-start instant.  Here `s` is the
timing state before the first call, `d1` the wall-clock time until the first
call begins, `g ≥ 0` the duration of the first request and its parsing, and
`d2 ≥ 0` the idle time before the second call begins. -/
theorem rate_limit_consecutive_calls (s : ClockState) (d1 g d2 : ℚ)
    (hg : 0 ≤ g) (hd2 : 0 ≤ d2) :
    min_request_interval ≤
      requestStart (advance ⟨requestStart (advance s d1),
        requestStart (advance s d1) + g⟩ d2) - requestStart (advance s d1) ∧
    (wait_for_rate_limit (advance s d1)).last_request_time
      = requestStart (advance s d1) ∧
    (wait_for_rate_limit (advance ⟨requestStart (advance s d1),
        requestStart (advance s d1) + g⟩ d2)).last_request_time
      = requestStart (advance ⟨requestStart (advance s d1),
          requestStart (advance s d1) + g⟩ d2) := by
  have key : ∀ r1 e : ℚ, 0 ≤ e →
      min_request_interval ≤ requestStart ⟨r1, r1 + e⟩ - r1 := by
    intro r1 e he
    unfold requestStart wait_for_rate_limit min_request_interval
    simp only
    split_ifs with h
    · linarith
    · unfold min_request_interval at h
      linarith [not_lt.mp h]
  refine ⟨?_, rfl, rfl⟩
  have hk := key (requestStart (advance s d1)) (g + d2) (by linarith)
  simpa [advance, add_assoc] using hk

/-- Witness for C9: a first call at clock 5 on a fresh instance, a request
lasting half a second, and an immediate second call. -/
theorem rate_limit_consecutive_calls_witness :
    min_request_interval ≤
      requestStart (advance ⟨requestStart (advance ⟨0, 0⟩ 5),
        requestStart (advance ⟨0, 0⟩ 5) + 1/2⟩ 0)
      - requestStart (advance ⟨0, 0⟩ 5) ∧
    (wait_for_rate_limit (advance ⟨0, 0⟩ 5)).last_request_time
      = requestStart (advance ⟨0, 0⟩ 5) ∧
    (wait_for_rate_limit (advance ⟨requestStart (advance ⟨0, 0⟩ 5),
        requestStart (advance ⟨0, 0⟩ 5) + 1/2⟩ 0)).last_request_time
      = requestStart (advance ⟨requestStart (advance ⟨0, 0⟩ 5),
          requestStart (advance ⟨0, 0⟩ 5) + 1/2⟩ 0) :=
  rate_limit_consecutive_calls ⟨0, 0⟩ 5 (1/2) 0 (by norm_num) (by norm_num)

/-! ## Helper lemmas: effectful traversal -/

theorem mapExcept_ok_of {α β ε : Type} (f : α → Except ε β) (g : α → β)
    (xs : List α) (h : ∀ x ∈ xs, f x = .ok (g x)) :
    mapExcept f xs = .ok (xs.map g) := by
  induction xs with
  | nil => rfl
  | cons x xs ih =>
    simp only [mapExcept, h x (by simp),
      ih (fun y hy => h y (by simp [hy])), List.map_cons]

theorem mapExcept_mem {α β ε : Type} (f : α → Except ε β) (xs : List α)
    (ys : List β) (h : mapExcept f xs = .ok ys) (y : β) (hy : y ∈ ys) :
    ∃ x ∈ xs, f x = .ok y := by
  induction xs generalizing ys with
  | nil =>
    simp only [mapExcept, Except.ok.injEq] at h
    subst h
    exact absurd hy (List.not_mem_nil y)
  | cons x xs ih =>
    simp only [mapExcept] at h
    cases hfx : f x with
    | error e => rw [hfx] at h; exact absurd h (by simp)
    | ok b =>
      rw [hfx] at h
      cases hrest : mapExcept f xs with
      | error e => rw [hrest] at h; exact absurd h (by simp)
      | ok bs =>
        rw [hrest] at h
        simp only [Except.ok.injEq] at h
        subst h
        rcases List.mem_cons.mp hy with rfl | hmem
        · exact ⟨x, by simp, hfx⟩
        · obtain ⟨x', hx', hfx'⟩ := ih bs hrest hmem
          exact ⟨x', by simp [hx'], hfx'⟩

theorem mapExcept_ok_forall {α β ε : Type} (f : α → Except ε β)
    (xs : List α) (ys : List β) (h : mapExcept f xs = .ok ys) :
    ∀ x ∈ xs, ∃ y, f x = .ok y := by
  induction xs generalizing ys with
  | nil => intro x hx; exact absurd hx (List.not_mem_nil x)
  | cons x xs ih =>
    intro z hz
    simp only [mapExcept] at h
    cases hfx : f x with
    | error e => rw [hfx] at h; exact absurd h (by simp)
    | ok b =>
      rw [hfx] at h
      cases hrest : mapExcept f xs with
      | error e => rw [hrest] at h; exact absurd h (by simp)
      | ok bs =>
        rcases List.mem_cons.mp hz with rfl | hmem
        · exact ⟨b, hfx⟩
        · exact ih bs hrest z hmem

theorem mapExcept_getTerm_error (cands : List Candidate)
    (h : ∃ c ∈ cands, c.term = none) :
    mapExcept (fun c => getKey c.term "term") cands
      = .error (.keyError "term") := by
  induction cands with
  | nil => simp at h
  | cons c cs ih =>
    obtain ⟨c', hc', hnone⟩ := h
    cases hct : c.term with
    | none => simp only [mapExcept, hct, getKey]
    | some t =>
      rcases List.mem_cons.mp hc' with rfl | hmem
      · exact absurd hnone (by simp [hct])
      · have hih := ih ⟨c', hmem, hnone⟩
        simp only [mapExcept, hct, getKey] at hih ⊢
        rw [hih]

/-! ## Helper lemmas: TF-IDF sums -/

theorem list_map_sum_fin {α : Type} (v : List α) (h : α → ℤ) :
    (v.map h).sum = ∑ i : Fin v.length, h (v.get i) := by
  conv_lhs => rw [← List.ofFn_get v]
  rw [List.map_ofFn, List.sum_ofFn]
  rfl

theorem tfidfDot_nonneg (w : ℕ → ℕ → ℤ) (T : List String) (a b : String) :
    0 ≤ tfidfDot w T a b := by
  unfold tfidfDot
  apply List.sum_nonneg
  intro x hx
  simp only [List.mem_map] at hx
  obtain ⟨t, _, rfl⟩ := hx
  rw [mul_mul_mul_comm]
  exact mul_nonneg (by positivity) (mul_self_nonneg _)

theorem tfidfDot_comm (w : ℕ → ℕ → ℤ) (T : List String) (a b : String) :
    tfidfDot w T a b = tfidfDot w T b a := by
  unfold tfidfDot
  rw [list_map_sum_fin, list_map_sum_fin]
  exact Finset.sum_congr rfl (fun i _ => by ring)

theorem tfidfDot_sq_le (w : ℕ → ℕ → ℤ) (T : List String) (a b : String) :
    (tfidfDot w T a b) ^ 2 ≤ tfidfDot w T a a * tfidfDot w T b b := by
  unfold tfidfDot
  rw [list_map_sum_fin, list_map_sum_fin, list_map_sum_fin]
  have h := Finset.sum_mul_sq_le_sq_mul_sq Finset.univ
    (fun i : Fin (vocabulary T).length =>
      (tfCount a ((vocabulary T).get i) : ℤ) *
        w T.length (dfCount T ((vocabulary T).get i)))
    (fun i : Fin (vocabulary T).length =>
      (tfCount b ((vocabulary T).get i) : ℤ) *
        w T.length (dfCount T ((vocabulary T).get i)))
  simpa only [pow_two] using h

theorem tfidfDot_eq_zero_of_self (w : ℕ → ℕ → ℤ) (T : List String)
    (a b : String) (h : tfidfDot w T a a = 0) : tfidfDot w T a b = 0 := by
  unfold tfidfDot at h ⊢
  rw [list_map_sum_fin] at h ⊢
  have hterms : ∀ i ∈ Finset.univ (α := Fin (vocabulary T).length),
      (0 : ℤ) ≤ ((tfCount a ((vocabulary T).get i) : ℤ) *
        w T.length (dfCount T ((vocabulary T).get i))) *
        ((tfCount a ((vocabulary T).get i) : ℤ) *
          w T.length (dfCount T ((vocabulary T).get i))) :=
    fun i _ => mul_self_nonneg _
  rw [Finset.sum_eq_zero_iff_of_nonneg hterms] at h
  apply Finset.sum_eq_zero
  intro i hi
  have hz := mul_self_eq_zero.mp (h i hi)
  rw [hz, zero_mul]

/-! ## Helper lemmas: score invariants -/

theorem querySq_nonneg (w : ℕ → ℕ → ℤ) (qts : List String)
    (cands : List Candidate) : 0 ≤ querySq w qts cands :=
  tfidfDot_nonneg w (corpus qts cands) (joinSpace qts) (joinSpace qts)

theorem scoreOk_simScores (w : ℕ → ℕ → ℤ) (qts : List String)
    (cands : List Candidate) :
    ∀ s ∈ simScores w qts cands, ScoreOk (querySq w qts cands) s := by
  intro s hs
  simp only [simScores, List.mem_map] at hs
  obtain ⟨t, _, rfl⟩ := hs
  refine ⟨tfidfDot_nonneg _ _ _ _, tfidfDot_nonneg _ _ _ _,
    tfidfDot_sq_le _ _ _ _, ?_, ?_⟩
  · intro hq0
    exact tfidfDot_eq_zero_of_self _ _ _ _ hq0
  · intro hn0
    rw [tfidfDot_comm]
    exact tfidfDot_eq_zero_of_self _ _ _ _ hn0

theorem scoreOk_default (qnsq : ℤ) : ScoreOk qnsq default :=
  ⟨le_refl 0, le_refl 0, by simp [default], fun _ => rfl, fun _ => rfl⟩

theorem scoreOk_getD (qnsq : ℤ) (sc : List Score)
    (hall : ∀ s ∈ sc, ScoreOk qnsq s) (i : ℕ) :
    ScoreOk qnsq (sc.getD i default) := by
  rcases h : sc.get? i with _ | s
  · rw [List.getD_eq_getElem?_getD, ← List.get?_eq_getElem?, h]
    exact scoreOk_default qnsq
  · rw [List.getD_eq_getElem?_getD, ← List.get?_eq_getElem?, h]
    exact hall s (List.get?_mem h)

/-! ## Helper lemmas: the cosine value and its exact comparison -/

theorem cosValue_zero_q (qnsq : ℤ) (s : Score) (h : qnsq = 0) :
    cosValue qnsq s = 0 := if_pos (Or.inl h)

theorem cosValue_zero_n (qnsq : ℤ) (s : Score) (h : s.nsq = 0) :
    cosValue qnsq s = 0 := if_pos (Or.inr h)

theorem cosValue_eq_div (qnsq : ℤ) (s : Score) (hq : qnsq ≠ 0)
    (hn : s.nsq ≠ 0) :
    cosValue qnsq s
      = (s.dot : ℝ) / (Real.sqrt (qnsq : ℤ) * Real.sqrt (s.nsq : ℤ)) := by
  unfold cosValue
  rw [if_neg]
  push_neg
  exact ⟨hq, hn⟩

theorem cosValue_nonneg (qnsq : ℤ) (s : Score) (hs : ScoreOk qnsq s) :
    0 ≤ cosValue qnsq s := by
  unfold cosValue
  split
  · exact le_refl 0
  · exact div_nonneg (by exact_mod_cast hs.dot_nonneg)
      (mul_nonneg (Real.sqrt_nonneg _) (Real.sqrt_nonneg _))

theorem cosValue_le_one (qnsq : ℤ) (s : Score) (hq : 0 ≤ qnsq)
    (hs : ScoreOk qnsq s) : cosValue qnsq s ≤ 1 := by
  unfold cosValue
  split
  · exact zero_le_one
  · rename_i hcond
    push_neg at hcond
    obtain ⟨hqne, hnne⟩ := hcond
    have hqpos : (0 : ℝ) < ((qnsq : ℤ) : ℝ) := by
      exact_mod_cast lt_of_le_of_ne hq (Ne.symm hqne)
    have hnpos : (0 : ℝ) < ((s.nsq : ℤ) : ℝ) := by
      exact_mod_cast lt_of_le_of_ne hs.nsq_nonneg (Ne.symm hnne)
    have hden : (0 : ℝ) < Real.sqrt (qnsq : ℤ) * Real.sqrt (s.nsq : ℤ) :=
      mul_pos (Real.sqrt_pos.mpr hqpos) (Real.sqrt_pos.mpr hnpos)
    rw [div_le_one hden]
    have hsq : ((s.dot : ℤ) : ℝ) ^ 2
        ≤ (Real.sqrt (qnsq : ℤ) * Real.sqrt (s.nsq : ℤ)) ^ 2 := by
      rw [mul_pow, Real.sq_sqrt hqpos.le, Real.sq_sqrt hnpos.le]
      exact_mod_cast hs.cs
    have hdotn : (0 : ℝ) ≤ ((s.dot : ℤ) : ℝ) := by exact_mod_cast hs.dot_nonneg
    exact (pow_le_pow_iff_left₀ hdotn hden.le (by norm_num)).mp hsq

theorem Score.le_iff (qnsq : ℤ) (a b : Score) (hq : 0 ≤ qnsq)
    (ha : ScoreOk qnsq a) (hb : ScoreOk qnsq b) :
    Score.le qnsq a b = true ↔ cosValue qnsq a ≤ cosValue qnsq b := by
  by_cases hq0 : qnsq = 0
  · unfold Score.le
    rw [if_pos (Or.inl hq0), cosValue_zero_q _ _ hq0, cosValue_zero_q _ _ hq0]
    simp
  by_cases han : a.nsq = 0
  · unfold Score.le
    rw [if_pos (Or.inr han), cosValue_zero_n _ _ han]
    exact iff_of_true rfl (cosValue_nonneg _ _ hb)
  have hqpos : (0 : ℝ) < ((qnsq : ℤ) : ℝ) := by
    exact_mod_cast lt_of_le_of_ne hq (Ne.symm hq0)
  have hanpos : (0 : ℝ) < ((a.nsq : ℤ) : ℝ) := by
    exact_mod_cast lt_of_le_of_ne ha.nsq_nonneg (Ne.symm han)
  have hdena : (0 : ℝ) < Real.sqrt (qnsq : ℤ) * Real.sqrt (a.nsq : ℤ) :=
    mul_pos (Real.sqrt_pos.mpr hqpos) (Real.sqrt_pos.mpr hanpos)
  by_cases hbn : b.nsq = 0
  · unfold Score.le
    rw [if_neg (by push_neg; exact ⟨hq0, han⟩), if_pos hbn,
      cosValue_zero_n _ _ hbn, cosValue_eq_div _ _ hq0 han, beq_iff_eq]
    constructor
    · intro h
      rw [h]
      simp
    · intro h
      have hle : ((a.dot : ℤ) : ℝ) ≤ 0 := by
        have h2 := (div_le_iff₀ hdena).mp h
        simpa using h2
      have hge : (0 : ℝ) ≤ ((a.dot : ℤ) : ℝ) := by exact_mod_cast ha.dot_nonneg
      exact_mod_cast le_antisymm hle hge
  · have hbnpos : (0 : ℝ) < ((b.nsq : ℤ) : ℝ) := by
      exact_mod_cast lt_of_le_of_ne hb.nsq_nonneg (Ne.symm hbn)
    have hdenb : (0 : ℝ) < Real.sqrt (qnsq : ℤ) * Real.sqrt (b.nsq : ℤ) :=
      mul_pos (Real.sqrt_pos.mpr hqpos) (Real.sqrt_pos.mpr hbnpos)
    unfold Score.le
    rw [if_neg (by push_neg; exact ⟨hq0, han⟩), if_neg hbn,
      cosValue_eq_div _ _ hq0 han, cosValue_eq_div _ _ hq0 hbn,
      decide_eq_true_iff]
    rw [div_le_div_iff₀ hdena hdenb]
    have h1 : ((a.dot : ℤ) : ℝ) * (Real.sqrt (qnsq : ℤ) * Real.sqrt (b.nsq : ℤ))
        ≤ ((b.dot : ℤ) : ℝ) * (Real.sqrt (qnsq : ℤ) * Real.sqrt (a.nsq : ℤ))
        ↔ ((a.dot : ℤ) : ℝ) * Real.sqrt (b.nsq : ℤ)
          ≤ ((b.dot : ℤ) : ℝ) * Real.sqrt (a.nsq : ℤ) := by
      rw [show ((a.dot : ℤ) : ℝ) * (Real.sqrt (qnsq : ℤ) * Real.sqrt (b.nsq : ℤ))
            = (((a.dot : ℤ) : ℝ) * Real.sqrt (b.nsq : ℤ)) * Real.sqrt (qnsq : ℤ)
          by ring,
        show ((b.dot : ℤ) : ℝ) * (Real.sqrt (qnsq : ℤ) * Real.sqrt (a.nsq : ℤ))
            = (((b.dot : ℤ) : ℝ) * Real.sqrt (a.nsq : ℤ)) * Real.sqrt (qnsq : ℤ)
          by ring]
      exact mul_le_mul_right (Real.sqrt_pos.mpr hqpos)
    have hxa : (0 : ℝ) ≤ ((a.dot : ℤ) : ℝ) * Real.sqrt (b.nsq : ℤ) :=
      mul_nonneg (by exact_mod_cast ha.dot_nonneg) (Real.sqrt_nonneg _)
    have hxb : (0 : ℝ) ≤ ((b.dot : ℤ) : ℝ) * Real.sqrt (a.nsq : ℤ) :=
      mul_nonneg (by exact_mod_cast hb.dot_nonneg) (Real.sqrt_nonneg _)
    rw [h1, ← pow_le_pow_iff_left₀ hxa hxb (two_ne_zero),
      mul_pow, mul_pow, Real.sq_sqrt hbnpos.le, Real.sq_sqrt hanpos.le]
    constructor
    · intro h
      exact_mod_cast h
    · intro h
      exact_mod_cast h

/-! ## Helper lemmas: the argsort order -/

theorem argOrder_iff (qnsq : ℤ) (sc : List Score) (hq : 0 ≤ qnsq)
    (hall : ∀ s ∈ sc, ScoreOk qnsq s) (i j : ℕ) :
    argOrder qnsq sc i j ↔
      (cosValue qnsq (sc.getD i default) < cosValue qnsq (sc.getD j default) ∨
       (cosValue qnsq (sc.getD i default) = cosValue qnsq (sc.getD j default)
        ∧ i ≤ j)) := by
  have hi := scoreOk_getD qnsq sc hall i
  have hj := scoreOk_getD qnsq sc hall j
  unfold argOrder
  rw [Score.le_iff _ _ _ hq hi hj, Score.le_iff _ _ _ hq hj hi]
  constructor
  · rintro ⟨hle, himp⟩
    rcases eq_or_lt_of_le hle with heq | hlt
    · exact Or.inr ⟨heq, himp heq.ge⟩
    · exact Or.inl hlt
  · rintro (hlt | ⟨heq, hij⟩)
    · exact ⟨hlt.le, fun hba => ((not_le.mpr hlt) hba).elim⟩
    · exact ⟨heq.le, fun _ => hij⟩

theorem argOrder_isAntisymm (qnsq : ℤ) (sc : List Score) :
    IsAntisymm ℕ (argOrder qnsq sc) := by
  constructor
  rintro i j ⟨hab, h1⟩ ⟨hba, h2⟩
  exact le_antisymm (h1 hba) (h2 hab)

theorem argOrder_isTotal (qnsq : ℤ) (sc : List Score) (hq : 0 ≤ qnsq)
    (hall : ∀ s ∈ sc, ScoreOk qnsq s) : IsTotal ℕ (argOrder qnsq sc) := by
  constructor
  intro i j
  rw [argOrder_iff qnsq sc hq hall, argOrder_iff qnsq sc hq hall]
  rcases lt_trichotomy (cosValue qnsq (sc.getD i default))
    (cosValue qnsq (sc.getD j default)) with hlt | heq | hgt
  · exact Or.inl (Or.inl hlt)
  · rcases le_total i j with hij | hji
    · exact Or.inl (Or.inr ⟨heq, hij⟩)
    · exact Or.inr (Or.inr ⟨heq.symm, hji⟩)
  · exact Or.inr (Or.inl hgt)

theorem argOrder_isTrans (qnsq : ℤ) (sc : List Score) (hq : 0 ≤ qnsq)
    (hall : ∀ s ∈ sc, ScoreOk qnsq s) : IsTrans ℕ (argOrder qnsq sc) := by
  constructor
  intro i j k hij hjk
  rw [argOrder_iff qnsq sc hq hall] at hij hjk ⊢
  rcases hij with hlt1 | ⟨heq1, hle1⟩ <;> rcases hjk with hlt2 | ⟨heq2, hle2⟩
  · exact Or.inl (lt_trans hlt1 hlt2)
  · exact Or.inl (heq2 ▸ hlt1)
  · exact Or.inl (heq1 ▸ hlt2)
  · exact Or.inr ⟨heq1.trans heq2, le_trans hle1 hle2⟩

theorem argsort_perm (qnsq : ℤ) (sc : List Score) :
    (argsort qnsq sc).Perm (List.range sc.length) :=
  List.perm_insertionSort _ _

theorem argsort_mem_lt (qnsq : ℤ) (sc : List Score) (i : ℕ)
    (h : i ∈ argsort qnsq sc) : i < sc.length :=
  List.mem_range.mp ((argsort_perm qnsq sc).mem_iff.mp h)

theorem argsort_nodup (qnsq : ℤ) (sc : List Score) :
    (argsort qnsq sc).Nodup :=
  ((argsort_perm qnsq sc).nodup_iff).mpr (List.nodup_range _)

theorem argsort_sorted (qnsq : ℤ) (sc : List Score) (hq : 0 ≤ qnsq)
    (hall : ∀ s ∈ sc, ScoreOk qnsq s) :
    List.Sorted (argOrder qnsq sc) (argsort qnsq sc) := by
  haveI := argOrder_isTotal qnsq sc hq hall
  haveI := argOrder_isTrans qnsq sc hq hall
  exact List.sorted_insertionSort _ _

theorem npTail_sublist {α : Type} (k : ℕ) (xs : List α) :
    (npTail k xs).Sublist xs := by
  unfold npTail
  split
  · exact List.Sublist.refl xs
  · exact List.drop_sublist _ xs

theorem npTail_length {α : Type} (k : ℕ) (xs : List α) (hk : k ≠ 0) :
    (npTail k xs).length = min k xs.length := by
  unfold npTail
  rw [if_neg hk, List.length_drop]
  omega

theorem top_indices_mem (qnsq : ℤ) (sc : List Score) (k i : ℕ)
    (h : i ∈ top_indices qnsq sc k) : i < sc.length := by
  unfold top_indices at h
  rw [List.mem_reverse] at h
  exact argsort_mem_lt _ _ _ ((npTail_sublist _ _).subset h)

theorem top_indices_length (qnsq : ℤ) (sc : List Score) (k : ℕ)
    (hk : k ≠ 0) : (top_indices qnsq sc k).length = min k sc.length := by
  unfold top_indices
  rw [List.length_reverse, npTail_length _ _ hk,
    (argsort_perm qnsq sc).length_eq, List.length_range]

theorem top_indices_nodup (qnsq : ℤ) (sc : List Score) (k : ℕ) :
    (top_indices qnsq sc k).Nodup :=
  List.nodup_reverse.mpr ((argsort_nodup qnsq sc).sublist (npTail_sublist _ _))

theorem top_indices_pairwise (qnsq : ℤ) (sc : List Score) (k : ℕ)
    (hq : 0 ≤ qnsq) (hall : ∀ s ∈ sc, ScoreOk qnsq s) :
    (top_indices qnsq sc k).Pairwise (fun i j => argOrder qnsq sc j i) := by
  unfold top_indices
  rw [List.pairwise_reverse]
  exact List.Pairwise.sublist (npTail_sublist _ _) (argsort_sorted qnsq sc hq hall)

theorem top_indices_strict (qnsq : ℤ) (sc : List Score) (k : ℕ)
    (hq : 0 ≤ qnsq) (hall : ∀ s ∈ sc, ScoreOk qnsq s) :
    (top_indices qnsq sc k).Pairwise (fun i j =>
      cosValue qnsq (sc.getD j default) < cosValue qnsq (sc.getD i default) ∨
      (cosValue qnsq (sc.getD i default) = cosValue qnsq (sc.getD j default)
       ∧ j < i)) := by
  have h1 := top_indices_pairwise qnsq sc k hq hall
  have h2 : (top_indices qnsq sc k).Pairwise (· ≠ ·) :=
    top_indices_nodup qnsq sc k
  refine (h1.and h2).imp ?_
  rintro i j ⟨hord, hne⟩
  rw [argOrder_iff qnsq sc hq hall] at hord
  rcases hord with hlt | ⟨heq, hji⟩
  · exact Or.inl hlt
  · exact Or.inr ⟨heq.symm, lt_of_le_of_ne hji (Ne.symm hne)⟩

/-! ## Helper lemmas: the structure of `compute_similarities` -/

theorem simScores_length (w : ℕ → ℕ → ℤ) (qts : List String)
    (cands : List Candidate) :
    (simScores w qts cands).length = cands.length := by
  unfold simScores candTerms
  rw [List.length_map, List.length_map]

theorem compute_eq (w : ℕ → ℕ → ℤ) (qts : List String)
    (cands : List Candidate) (k : ℕ) (hq : qts ≠ []) (hc : cands ≠ [])
    (hterm : ∀ c ∈ cands, c.term ≠ none) :
    compute_similarities w qts cands k =
      if vocabulary (corpus qts cands) = [] then .error .emptyVocabulary
      else
        mapExcept
          (buildResult (querySq w qts cands) cands (simScores w qts cands))
          (topIdx w qts cands k) := by
  unfold compute_similarities
  rw [if_neg (by push_neg; exact ⟨hq, hc⟩)]
  have hmap : mapExcept (fun c => getKey c.term "term") cands
      = .ok (candTerms cands) := by
    unfold candTerms
    apply mapExcept_ok_of
    intro c hc'
    cases hct : c.term with
    | none => exact absurd hct (hterm c hc')
    | some t => rfl
  rw [hmap]
  rfl

theorem buildResult_ok (qnsq : ℤ) (cands : List Candidate)
    (sims : List Score) (idx : ℕ)
    (hfull : ∀ c ∈ cands, c.term ≠ none ∧ c.id ≠ none ∧ c.url ≠ none)
    (hidx : idx < cands.length) (hsim : idx < sims.length) :
    buildResult qnsq cands sims idx
      = .ok (mkResult qnsq cands sims idx) := by
  rcases hg : cands.get? idx with _ | c
  · rw [List.get?_eq_none] at hg
    omega
  · rcases hsg : sims.get? idx with _ | sc
    · rw [List.get?_eq_none] at hsg
      omega
    · have hcd : cands.getD idx default = c := by
        rw [List.getD_eq_getElem?_getD, ← List.get?_eq_getElem?, hg]
        rfl
      have hsd : sims.getD idx default = sc := by
        rw [List.getD_eq_getElem?_getD, ← List.get?_eq_getElem?, hsg]
        rfl
      obtain ⟨ht, hi, hu⟩ := hfull c (List.get?_mem hg)
      obtain ⟨t, hct⟩ := Option.ne_none_iff_exists'.mp ht
      obtain ⟨i, hci⟩ := Option.ne_none_iff_exists'.mp hi
      obtain ⟨u, hcu⟩ := Option.ne_none_iff_exists'.mp hu
      simp only [buildResult, mkResult, hg, hsg, hcd, hsd, hct, hci, hcu,
        Option.getD]

theorem compute_ok_full (w : ℕ → ℕ → ℤ) (qts : List String)
    (cands : List Candidate) (k : ℕ) (hq : qts ≠ []) (hc : cands ≠ [])
    (hfull : ∀ c ∈ cands, c.term ≠ none ∧ c.id ≠ none ∧ c.url ≠ none)
    (hvoc : vocabulary (corpus qts cands) ≠ []) :
    compute_similarities w qts cands k =
      .ok ((topIdx w qts cands k).map
        (mkResult (querySq w qts cands) cands (simScores w qts cands))) := by
  rw [compute_eq w qts cands k hq hc (fun c hc' => (hfull c hc').1),
    if_neg hvoc]
  apply mapExcept_ok_of
  intro idx hidx
  unfold topIdx at hidx
  have hlt : idx < (simScores w qts cands).length :=
    top_indices_mem _ _ _ _ hidx
  exact buildResult_ok _ _ _ _ hfull
    (by rw [← simScores_length w qts cands]; exact hlt) hlt

/-! ## Helper lemmas: rounding, zero scores, and inversion -/

theorem round3_mono {x y : ℝ} (h : x ≤ y) : round3 x ≤ round3 y := by
  unfold round3
  have hr : round (1000 * x) ≤ round (1000 * y) := by
    rw [round_eq, round_eq]
    exact Int.floor_mono (by linarith)
  have h2 : ((round (1000 * x) : ℤ) : ℝ) ≤ ((round (1000 * y) : ℤ) : ℝ) := by
    exact_mod_cast hr
  linarith

theorem round3_zero : round3 0 = 0 := by
  unfold round3
  rw [mul_zero, round_zero]
  norm_num

theorem round3_one : round3 1 = 1 := by
  unfold round3
  rw [mul_one, show ((1000 : ℝ)) = ((1000 : ℤ) : ℝ) by norm_num,
    round_intCast]
  norm_num

theorem round3_nonneg {x : ℝ} (hx : 0 ≤ x) : 0 ≤ round3 x := by
  rw [← round3_zero]
  exact round3_mono hx

theorem round3_le_one {x : ℝ} (hx : x ≤ 1) : round3 x ≤ 1 := by
  rw [← round3_one]
  exact round3_mono hx

theorem cosValue_dot_zero (qnsq : ℤ) (s : Score) (h : s.dot = 0) :
    cosValue qnsq s = 0 := by
  unfold cosValue
  split
  · rfl
  · rw [h]
    simp

/-- The score invariants for the raw batch built from a query text and
candidate texts, as `compute_similarities` assembles it. -/
theorem scoreOk_batch (w : ℕ → ℕ → ℤ) (qt : String) (cts : List String) :
    ∀ s ∈ cts.map (fun t =>
        Score.mk (tfidfDot w (qt :: cts) qt t) (tfidfDot w (qt :: cts) t t)),
      ScoreOk (tfidfDot w (qt :: cts) qt qt) s := by
  intro s hs
  simp only [List.mem_map] at hs
  obtain ⟨t, _, rfl⟩ := hs
  refine ⟨tfidfDot_nonneg _ _ _ _, tfidfDot_nonneg _ _ _ _,
    tfidfDot_sq_le _ _ _ _, ?_, ?_⟩
  · intro hq0
    exact tfidfDot_eq_zero_of_self _ _ _ _ hq0
  · intro hn0
    rw [tfidfDot_comm]
    exact tfidfDot_eq_zero_of_self _ _ _ _ hn0

/-- A successful `buildResult` stores the shared query norm and one of the
batch's scores. -/
theorem buildResult_ok_inv (qnsq : ℤ) (cands : List Candidate)
    (sims : List Score) (idx : ℕ) (r : Result)
    (h : buildResult qnsq cands sims idx = .ok r) :
    r.qnsq = qnsq ∧ r.score ∈ sims := by
  unfold buildResult at h
  rcases hg : cands.get? idx with _ | c <;> rw [hg] at h
  · exact absurd h (by simp)
  · rcases hsg : sims.get? idx with _ | sc <;> rw [hsg] at h
    · exact absurd h (by simp)
    · rcases hct : c.term with _ | t <;> simp only [hct] at h
      · exact absurd h (by simp)
      · rcases hci : c.id with _ | i <;> simp only [hci] at h
        · exact absurd h (by simp)
        · rcases hcu : c.url with _ | u <;> simp only [hcu] at h
          · exact absurd h (by simp)
          · simp only [Except.ok.injEq] at h
            subst h
            exact ⟨rfl, List.get?_mem hsg⟩

/-- When every score of the batch has a zero inner product (all cosine
values are equal), the ascending argsort is the identity permutation. -/
theorem argsort_all_zero (qnsq : ℤ) (sc : List Score)
    (hdots : ∀ s ∈ sc, s.dot = 0) :
    argsort qnsq sc = List.range sc.length := by
  have hd : ∀ i : ℕ, (sc.getD i default).dot = 0 := by
    intro i
    rcases h : sc.get? i with _ | s
    · rw [List.getD_eq_getElem?_getD, ← List.get?_eq_getElem?, h]
      rfl
    · rw [List.getD_eq_getElem?_getD, ← List.get?_eq_getElem?, h]
      exact hdots s (List.get?_mem h)
  have hle : ∀ i j : ℕ,
      Score.le qnsq (sc.getD i default) (sc.getD j default) = true := by
    intro i j
    unfold Score.le
    split
    · rfl
    · split
      · rw [hd i]
        rfl
      · rw [decide_eq_true_iff, hd i, hd j]
        simp
  have hord : ∀ i j : ℕ, argOrder qnsq sc i j ↔ i ≤ j := by
    intro i j
    unfold argOrder
    rw [hle i j, hle j i]
    simp
  haveI htot : IsTotal ℕ (argOrder qnsq sc) :=
    ⟨fun i j => by rw [hord, hord]; omega⟩
  haveI htr : IsTrans ℕ (argOrder qnsq sc) :=
    ⟨fun i j l hij hjl => by
      rw [hord] at hij hjl ⊢
      omega⟩
  haveI := argOrder_isAntisymm qnsq sc
  refine List.eq_of_perm_of_sorted (argsort_perm qnsq sc)
    (List.sorted_insertionSort _ _) ?_
  exact List.Pairwise.imp (fun hab => (hord _ _).mpr (le_of_lt hab))
    (List.pairwise_lt_range _)

/-- Mapping a lookup function over a dropped index range is mapping over the
dropped list. -/
theorem map_getD_drop_range {α β : Type} (l : List α) (d : α) (g : α → β)
    (m : ℕ) :
    ((List.range l.length).drop m).map (fun i => g (l.getD i d))
      = (l.drop m).map g := by
  apply List.ext_getElem
  · simp
  · intro n h1 h2
    simp only [List.getElem_map, List.getElem_drop, List.getElem_range]
    have hb : m + n < l.length := by
      simp only [List.length_map, List.length_drop] at h2
      omega
    congr 1
    rw [List.getD_eq_getElem?_getD, List.getElem?_eq_getElem hb,
      Option.getD_some]

/-! ## The claims about `compute_similarities` -/

/-- C7: with an empty query-term list or an empty candidate list,
`compute_similarities` returns the empty sequence at once (lines 100-101),
raising nothing, whatever `topK` is. -/
theorem compute_similarities_empty_inputs :
    (∀ (w : ℕ → ℕ → ℤ) (cands : List Candidate) (k : ℕ),
      compute_similarities w [] cands k = .ok []) ∧
    (∀ (w : ℕ → ℕ → ℤ) (qts : List String) (k : ℕ),
      compute_similarities w qts [] k = .ok []) := by
  constructor
  · intro w cands k
    unfold compute_similarities
    rw [if_pos (Or.inl rfl)]
  · intro w qts k
    unfold compute_similarities
    rw [if_pos (Or.inr rfl)]

/-- C1 (amended): for non-empty query terms, non-empty candidates that all
carry their three keys, `topK ≥ 1`, and a corpus whose vocabulary is
non-empty (so that the vectorizer does not raise), `compute_similarities`
returns a sequence of exactly `min topK (number of candidates)`
recommendations. -/
theorem compute_similarities_length (w : ℕ → ℕ → ℤ) (qts : List String)
    (cands : List Candidate) (k : ℕ) (hq : qts ≠ []) (hc : cands ≠ [])
    (hk : 1 ≤ k)
    (hfull : ∀ c ∈ cands, c.term ≠ none ∧ c.id ≠ none ∧ c.url ≠ none)
    (hvoc : vocabulary (corpus qts cands) ≠ []) :
    ∃ rs, compute_similarities w qts cands k = .ok rs ∧
      rs.length = min k cands.length := by
  refine ⟨_, compute_ok_full w qts cands k hq hc hfull hvoc, ?_⟩
  rw [List.length_map]
  unfold topIdx
  rw [top_indices_length _ _ _ (by omega), simScores_length]

/-- Witness for C1 (amended) at a one-candidate batch with the default
`topK = 10`. -/
theorem compute_similarities_length_witness :
    ∃ rs, compute_similarities (fun _ _ => 1) ["aa"]
        [⟨some "bb", some "id0", some "u"⟩] 10 = .ok rs ∧
      rs.length = min 10 1 :=
  compute_similarities_length (fun _ _ => 1) ["aa"]
    [⟨some "bb", some "id0", some "u"⟩] 10 (by decide) (by decide)
    (by decide) (by decide) (by decide)

/-- C1 counterexample: with `topK = 0` the slice `[-top_k:]` is `[-0:]`,
which is the whole array, so a one-candidate batch returns one
recommendation where the claim demands `min 0 1 = 0`. -/
theorem compute_similarities_topk_zero :
    (compute_similarities (fun _ _ => 1) ["aa"]
        [⟨some "bb", some "id0", some "u"⟩] 0).map (fun rs => rs.length)
      = .ok 1 ∧ min 0 1 = 0 := by
  constructor
  · decide
  · rfl

/-- C2 (amended): a successful batch is the selected indices mapped to
output records; the selected indices are ordered by strictly descending
cosine value with ties broken by strictly descending candidate index — that
is, candidates with equal scores appear in REVERSE input order (the
ascending stable argsort is reversed wholesale at line 123, which flips the
tie order), not input order — and consequently the emitted (rounded)
similarity scores are descending along the returned sequence. -/
theorem compute_similarities_order (w : ℕ → ℕ → ℤ) (qts : List String)
    (cands : List Candidate) (k : ℕ) (rs : List Result)
    (hq : qts ≠ []) (hc : cands ≠ [])
    (hfull : ∀ c ∈ cands, c.term ≠ none ∧ c.id ≠ none ∧ c.url ≠ none)
    (hvoc : vocabulary (corpus qts cands) ≠ [])
    (h : compute_similarities w qts cands k = .ok rs) :
    rs = (topIdx w qts cands k).map
        (mkResult (querySq w qts cands) cands (simScores w qts cands)) ∧
    (topIdx w qts cands k).Pairwise (fun i j =>
      cosOf w qts cands j < cosOf w qts cands i ∨
      (cosOf w qts cands i = cosOf w qts cands j ∧ j < i)) ∧
    rs.Pairwise (fun r r' => r'.similarity_score ≤ r.similarity_score) := by
  have hok := compute_ok_full w qts cands k hq hc hfull hvoc
  have hrs : rs = (topIdx w qts cands k).map
      (mkResult (querySq w qts cands) cands (simScores w qts cands)) :=
    Except.ok.inj (h.symm.trans hok)
  have hstrict : (topIdx w qts cands k).Pairwise (fun i j =>
      cosOf w qts cands j < cosOf w qts cands i ∨
      (cosOf w qts cands i = cosOf w qts cands j ∧ j < i)) := by
    unfold topIdx cosOf
    exact top_indices_strict (querySq w qts cands) (simScores w qts cands) k
      (querySq_nonneg w qts cands) (scoreOk_simScores w qts cands)
  refine ⟨hrs, hstrict, ?_⟩
  subst hrs
  rw [List.pairwise_map]
  refine hstrict.imp ?_
  intro i j hij
  have hcosle : cosOf w qts cands j ≤ cosOf w qts cands i := by
    rcases hij with hlt | ⟨heq, _⟩
    · exact hlt.le
    · exact heq.ge
  show round3 (cosOf w qts cands j) ≤ round3 (cosOf w qts cands i)
  exact round3_mono hcosle

/-- Witness for C2 (amended) at a two-candidate batch with distinct scores:
the query-matching candidate is returned first. -/
theorem compute_similarities_order_witness :
    ([⟨"aa", "id1", "u", 1, ⟨1, 1⟩⟩, ⟨"bb", "id0", "u", 1, ⟨0, 1⟩⟩]
        : List Result)
      = (topIdx (fun _ _ => 1) ["aa"]
          [⟨some "bb", some "id0", some "u"⟩, ⟨some "aa", some "id1", some "u"⟩]
          10).map
        (mkResult
          (querySq (fun _ _ => 1) ["aa"]
            [⟨some "bb", some "id0", some "u"⟩, ⟨some "aa", some "id1", some "u"⟩])
          [⟨some "bb", some "id0", some "u"⟩, ⟨some "aa", some "id1", some "u"⟩]
          (simScores (fun _ _ => 1) ["aa"]
            [⟨some "bb", some "id0", some "u"⟩,
             ⟨some "aa", some "id1", some "u"⟩])) ∧
    (topIdx (fun _ _ => 1) ["aa"]
        [⟨some "bb", some "id0", some "u"⟩, ⟨some "aa", some "id1", some "u"⟩]
        10).Pairwise (fun i j =>
      cosOf (fun _ _ => 1) ["aa"]
          [⟨some "bb", some "id0", some "u"⟩, ⟨some "aa", some "id1", some "u"⟩] j
        < cosOf (fun _ _ => 1) ["aa"]
          [⟨some "bb", some "id0", some "u"⟩, ⟨some "aa", some "id1", some "u"⟩] i ∨
      (cosOf (fun _ _ => 1) ["aa"]
          [⟨some "bb", some "id0", some "u"⟩, ⟨some "aa", some "id1", some "u"⟩] i
        = cosOf (fun _ _ => 1) ["aa"]
          [⟨some "bb", some "id0", some "u"⟩, ⟨some "aa", some "id1", some "u"⟩] j
       ∧ j < i)) ∧
    ([⟨"aa", "id1", "u", 1, ⟨1, 1⟩⟩, ⟨"bb", "id0", "u", 1, ⟨0, 1⟩⟩]
        : List Result).Pairwise
      (fun r r' => r'.similarity_score ≤ r.similarity_score) :=
  compute_similarities_order (fun _ _ => 1) ["aa"]
    [⟨some "bb", some "id0", some "u"⟩, ⟨some "aa", some "id1", some "u"⟩]
    10 [⟨"aa", "id1", "u", 1, ⟨1, 1⟩⟩, ⟨"bb", "id0", "u", 1, ⟨0, 1⟩⟩]
    (by decide) (by decide) (by decide) (by decide) (by decide)

/-- C2 counterexample: two candidates with the same term `"bb"` receive
equal similarity scores (second conjunct), yet the batch returns them as
`["id1", "id0"]` — the reverse of their input order `["id0", "id1"]` — so
ties do not appear in input order. -/
theorem compute_similarities_ties_reversed :
    (compute_similarities (fun _ _ => 1) ["aa"]
        [⟨some "bb", some "id0", some "u"⟩, ⟨some "bb", some "id1", some "u"⟩]
        10).map (fun rs => rs.map Result.id) = .ok ["id1", "id0"] ∧
    (simScores (fun _ _ => 1) ["aa"]
        [⟨some "bb", some "id0", some "u"⟩,
         ⟨some "bb", some "id1", some "u"⟩]).getD 0 default
      = (simScores (fun _ _ => 1) ["aa"]
        [⟨some "bb", some "id0", some "u"⟩,
         ⟨some "bb", some "id1", some "u"⟩]).getD 1 default := by
  constructor
  · decide
  · decide

/-- C4 (amended): for non-empty inputs, (a) when the corpus yields an empty
vocabulary the `ValueError` of `fit_transform` propagates: the call raises
instead of returning zero scores; and (b) when the vocabulary is non-empty
but every similarity is zero (every candidate row has a zero inner product
with the query row, e.g. the query is all stop words), no error is raised,
every emitted score is `0`, and the batch consists of the LAST
`min topK n` candidates in REVERSE input order — not the candidates in
input order. -/
theorem compute_similarities_degenerate (w : ℕ → ℕ → ℤ) (qts : List String)
    (cands : List Candidate) (k : ℕ) (hq : qts ≠ []) (hc : cands ≠ []) :
    ((∀ c ∈ cands, c.term ≠ none) → vocabulary (corpus qts cands) = [] →
      compute_similarities w qts cands k = .error .emptyVocabulary) ∧
    ((∀ c ∈ cands, c.term ≠ none ∧ c.id ≠ none ∧ c.url ≠ none) →
      vocabulary (corpus qts cands) ≠ [] →
      (∀ s ∈ simScores w qts cands, s.dot = 0) → 1 ≤ k →
      ∃ rs, compute_similarities w qts cands k = .ok rs ∧
        (∀ r ∈ rs, r.similarity_score = 0) ∧
        rs.map Result.id
          = ((cands.drop (cands.length - k)).map
              (fun c => c.id.getD "")).reverse) := by
  constructor
  · intro hterm hvoc
    rw [compute_eq w qts cands k hq hc hterm, if_pos hvoc]
  · intro hfull hvoc hdots hk
    refine ⟨_, compute_ok_full w qts cands k hq hc hfull hvoc, ?_, ?_⟩
    · intro r hr
      rw [List.mem_map] at hr
      obtain ⟨idx, hidx, rfl⟩ := hr
      have hd : ((simScores w qts cands).getD idx default).dot = 0 := by
        rcases hg : (simScores w qts cands).get? idx with _ | s
        · rw [List.getD_eq_getElem?_getD, ← List.get?_eq_getElem?, hg]
          rfl
        · rw [List.getD_eq_getElem?_getD, ← List.get?_eq_getElem?, hg]
          exact hdots s (List.get?_mem hg)
      show round3 (cosValue (querySq w qts cands)
        ((simScores w qts cands).getD idx default)) = 0
      rw [cosValue_dot_zero _ _ hd, round3_zero]
    · rw [List.map_map]
      unfold topIdx top_indices
      rw [argsort_all_zero _ _ hdots, simScores_length]
      unfold npTail
      rw [if_neg (by omega), List.length_range, List.map_reverse]
      congr 1
      have hfun : ∀ i ∈ (List.range cands.length).drop (cands.length - k),
          (Result.id ∘ mkResult (querySq w qts cands) cands
            (simScores w qts cands)) i
            = (fun i => (fun c => c.id.getD "") (cands.getD i default)) i :=
        fun i _ => rfl
      rw [List.map_congr_left hfun]
      exact map_getD_drop_range cands default (fun c => c.id.getD "")
        (cands.length - k)

/-- Witness for C4 (amended): (a) a pure stop-word corpus raises the
empty-vocabulary error; (b) a batch whose query shares no token with any
candidate returns all-zero scores with the last two of three candidates in
reverse input order. -/
theorem compute_similarities_degenerate_witness :
    (compute_similarities (fun _ _ => 1) ["the"]
        [⟨some "of", some "idA", some "uA"⟩] 10 = .error .emptyVocabulary) ∧
    (∃ rs, compute_similarities (fun _ _ => 1) ["xx yy"]
        [⟨some "zz", some "id0", some "u"⟩, ⟨some "qq", some "id1", some "u"⟩,
         ⟨some "rr", some "id2", some "u"⟩] 2 = .ok rs ∧
      (∀ r ∈ rs, r.similarity_score = 0) ∧
      rs.map Result.id
        = (([⟨some "zz", some "id0", some "u"⟩,
             ⟨some "qq", some "id1", some "u"⟩,
             ⟨some "rr", some "id2", some "u"⟩] : List Candidate).drop (3 - 2)
            |>.map (fun c => c.id.getD "")).reverse) :=
  ⟨(compute_similarities_degenerate (fun _ _ => 1) ["the"]
      [⟨some "of", some "idA", some "uA"⟩] 10 (by decide) (by decide)).1
      (by decide) (by decide),
   (compute_similarities_degenerate (fun _ _ => 1) ["xx yy"]
      [⟨some "zz", some "id0", some "u"⟩, ⟨some "qq", some "id1", some "u"⟩,
       ⟨some "rr", some "id2", some "u"⟩] 2 (by decide) (by decide)).2
      (by decide) (by decide) (by decide) (by decide)⟩

/-- C4 counterexample: a corpus made solely of English stop words (`"the"`
and `"of"`) yields an empty vocabulary, and `compute_similarities` raises
the vectorizer's `ValueError` instead of returning zero scores in input
order. -/
theorem compute_similarities_stopwords_raise :
    compute_similarities (fun _ _ => 1) ["the"]
      [⟨some "of", some "id0", some "u"⟩] 10 = .error .emptyVocabulary := by
  decide

/-- C6: every `similarity_score` of a successful batch lies in `[0, 1]`, is
an integer multiple of `1/1000` (exactly three decimal places), and is the
3-decimal rounding of the underlying cosine-similarity value of its score
data. -/
theorem compute_similarities_score_bounds (w : ℕ → ℕ → ℤ)
    (qts : List String) (cands : List Candidate) (k : ℕ) (rs : List Result)
    (h : compute_similarities w qts cands k = .ok rs)
    (r : Result) (hr : r ∈ rs) :
    0 ≤ r.similarity_score ∧ r.similarity_score ≤ 1 ∧
    (∃ m : ℤ, r.similarity_score = (m : ℝ) / 1000) ∧
    r.similarity_score = round3 (cosValue r.qnsq r.score) := by
  unfold compute_similarities at h
  split at h
  · replace h := Except.ok.inj h
    subst h
    exact absurd hr (List.not_mem_nil r)
  · simp only at h
    split at h
    · exact absurd h (by simp)
    · rename_i candidate_terms hmap
      split at h
      · exact absurd h (by simp)
      · obtain ⟨idx, _, hbuild⟩ := mapExcept_mem _ _ _ h r hr
        obtain ⟨hqn, hmem⟩ := buildResult_ok_inv _ _ _ _ _ hbuild
        have hok : ScoreOk r.qnsq r.score := by
          rw [hqn]
          exact scoreOk_batch w (joinSpace qts) candidate_terms _ hmem
        have hqnn : 0 ≤ r.qnsq := by
          rw [hqn]
          exact tfidfDot_nonneg _ _ _ _
        refine ⟨round3_nonneg (cosValue_nonneg _ _ hok),
          round3_le_one (cosValue_le_one _ _ hqnn hok),
          ⟨round (1000 * cosValue r.qnsq r.score), rfl⟩, rfl⟩

/-- Witness for C6 at a one-candidate batch whose candidate shares no token
with the query (cosine value 0). -/
theorem compute_similarities_score_bounds_witness :
    0 ≤ Result.similarity_score ⟨"bb", "i", "u", 1, ⟨0, 1⟩⟩ ∧
    Result.similarity_score ⟨"bb", "i", "u", 1, ⟨0, 1⟩⟩ ≤ 1 ∧
    (∃ m : ℤ, Result.similarity_score ⟨"bb", "i", "u", 1, ⟨0, 1⟩⟩
      = (m : ℝ) / 1000) ∧
    Result.similarity_score ⟨"bb", "i", "u", 1, ⟨0, 1⟩⟩
      = round3 (cosValue 1 ⟨0, 1⟩) :=
  compute_similarities_score_bounds (fun _ _ => 1) ["aa"]
    [⟨some "bb", some "i", some "u"⟩] 10 [⟨"bb", "i", "u", 1, ⟨0, 1⟩⟩]
    (by decide) ⟨"bb", "i", "u", 1, ⟨0, 1⟩⟩ (by decide)

/-- C10: reading the candidate dictionaries is an unstated precondition.
(1) With non-empty inputs, a candidate lacking the `"term"` key always makes
`compute_similarities` raise `KeyError('term')` at line 107, before any
ranking.  (2) When every candidate has a `"term"` and vectorization
succeeds, a candidate lacking `"id"` or `"url"` that is selected among the
top-K makes the call raise instead of returning a sequence. -/
theorem compute_similarities_missing_keys (w : ℕ → ℕ → ℤ)
    (qts : List String) (cands : List Candidate) (k : ℕ)
    (hq : qts ≠ []) (hc : cands ≠ []) :
    ((∃ c ∈ cands, c.term = none) →
      compute_similarities w qts cands k = .error (.keyError "term")) ∧
    ((∀ c ∈ cands, c.term ≠ none) → vocabulary (corpus qts cands) ≠ [] →
      ∀ idx ∈ topIdx w qts cands k, ∀ c, cands.get? idx = some c →
        c.id = none ∨ c.url = none →
        ∃ e, compute_similarities w qts cands k = .error e) := by
  constructor
  · intro hex
    unfold compute_similarities
    rw [if_neg (by push_neg; exact ⟨hq, hc⟩),
      mapExcept_getTerm_error cands hex]
  · intro hterm hvoc idx hidx c hgc hmiss
    rw [compute_eq w qts cands k hq hc hterm, if_neg hvoc]
    cases hres : mapExcept
        (buildResult (querySq w qts cands) cands (simScores w qts cands))
        (topIdx w qts cands k) with
    | error e => exact ⟨e, rfl⟩
    | ok rs =>
      exfalso
      obtain ⟨y, hy⟩ := mapExcept_ok_forall _ _ _ hres idx hidx
      have hlt : idx < (simScores w qts cands).length := by
        unfold topIdx at hidx
        exact top_indices_mem _ _ _ _ hidx
      rcases hsg : (simScores w qts cands).get? idx with _ | sc
      · rw [List.get?_eq_none] at hsg
        omega
      · obtain ⟨t, hct⟩ :=
          Option.ne_none_iff_exists'.mp (hterm c (List.get?_mem hgc))
        rcases hmiss with hid | hurl
        · simp only [buildResult, hgc, hsg, hct, hid] at hy
          exact Except.noConfusion hy
        · cases hci : c.id with
          | none =>
            simp only [buildResult, hgc, hsg, hct, hci] at hy
            exact Except.noConfusion hy
          | some i =>
            simp only [buildResult, hgc, hsg, hct, hci, hurl] at hy
            exact Except.noConfusion hy

/-- Witness for C10: a candidate without `"term"` raises `KeyError('term')`;
a selected candidate without `"id"` raises. -/
theorem compute_similarities_missing_keys_witness :
    (compute_similarities (fun _ _ => 1) ["aa"]
        [⟨none, some "id0", some "u"⟩] 10 = .error (.keyError "term")) ∧
    (∃ e, compute_similarities (fun _ _ => 1) ["aa"]
        [⟨some "bb", none, some "u"⟩] 10 = .error e) :=
  ⟨(compute_similarities_missing_keys (fun _ _ => 1) ["aa"]
      [⟨none, some "id0", some "u"⟩] 10 (by decide) (by decide)).1
      ⟨⟨none, some "id0", some "u"⟩, by decide, rfl⟩,
   (compute_similarities_missing_keys (fun _ _ => 1) ["aa"]
      [⟨some "bb", none, some "u"⟩] 10 (by decide) (by decide)).2
      (by decide) (by decide) 0 (by decide) ⟨some "bb", none, some "u"⟩
      (by decide) (Or.inl rfl)⟩

end LCSH
